import Mathlib

/-!
Shallow embedding of the session-lifecycle and derived-metrics core of the
sat-api backend (userService session methods, subject classification,
streak/star metrics, and the two retention-cleanup variants), together with
theorems settling the specification claims about it.

Modelling conventions:
* JSON values are modelled structurally: a session's `data` column is
  `Option SessionData`; a missing/empty `messages` array is `[]`.
* Database rows live in plain lists inside a `DB` record; Prisma calls are
  translated into pure state-passing functions.  A Prisma `delete` on an
  absent id is an explicit `P2025` error value.
* Timestamps (`createdAt`, `updatedAt`) are abstract instants (`Nat`,
  milliseconds); calendar days in the streak computation are `Int` day
  numbers (the code normalises every date to local midnight first).
* The AI completion oracle is an explicit parameter: `OracleResp` is either
  a network failure, an unparseable response, or a parsed list of raw
  subject buckets.  JavaScript falsy coercions (`s.subject || 'Unknown'`,
  `s.topic || null`, `parseInt(..) || 1`) are modelled with `Option`.
* Fire-and-forget background work inside `updateSession` (the unawaited
  metrics recalculation and dominant-subject write-back) is not applied in
  the sequential model; the awaited completion-time classification and
  Progress creation are.  The dominant-subject callback's classifier access
  is modelled separately as `dominantSubject`.
* JavaScript number arithmetic is modelled with `ℚ` (exact rationals) and
  `Math.round` with Mathlib's `round` (`⌊x + 1/2⌋`, which agrees with
  JavaScript's round-half-up on the non-negative values that occur here).
-/

namespace SatApi

/-- One transcript message.  `id = "1"` marks the synthetic welcome message;
`attachments` and `image` carry blob-storage URLs (used only by the cleanup
engine's URL extraction). -/
structure Message where
  id : String
  sender : String
  text : Option String
  attachments : List String := []
  image : Option String := none
  deriving Repr, DecidableEq

/-- The JSON payload of a session's `data` column: the transcript plus the
legacy `chatHistory` shape (modelled by its attachment-bearing entries). -/
structure SessionData where
  messages : List Message := []
  chatHistory : List Message := []
  deriving Repr, DecidableEq

/-- A session row. -/
structure Session where
  id : Nat
  userId : String
  data : Option SessionData := none
  lastPoint : Option String := none
  subject : Option String := none
  topic : Option String := none
  duration : Nat := 0
  completed : Bool := false
  questionsAnswered : Nat := 0
  correctAnswers : Nat := 0
  audioModeEnabled : Bool := false
  textModeEnabled : Bool := true
  photoUploadsCount : Nat := 0
  whiteboardSubmissions : Nat := 0
  aiInteractions : Nat := 0
  spreadingJoyActions : Nat := 0
  createdAt : Nat := 0
  updatedAt : Nat := 0
  deriving Repr, DecidableEq

/-- A Progress row as created by `updateSession` on completion. -/
structure Progress where
  userId : String
  subject : String
  topic : Option String
  score : Nat := 0
  accuracy : Nat := 0
  timeSpent : Int
  questionsAttempted : Nat
  questionsCorrect : Int
  questionsWrong : Int
  level : String := "beginner"
  sessionId : Nat
  isMultiSubjectSession : Bool
  totalSubjectsInSession : Nat
  deriving Repr, DecidableEq

/-- Admin retention settings (the `AdminSettings` columns the core reads). -/
structure AdminSettings where
  dataRetention : Bool
  retentionDuration : String
  deriving Repr, DecidableEq

/-- The database state owned by the core. -/
structure DB where
  sessions : List Session := []
  progress : List Progress := []
  nextId : Nat := 0
  deriving Repr, DecidableEq

/-- `POST /me/sessions` body as declared by `CreateSessionInput`. -/
structure CreateSessionInput where
  subject : Option String := none
  topic : Option String := none
  data : Option SessionData := none
  lastPoint : Option String := none
  deriving Repr, DecidableEq

/-- `PATCH /me/sessions/:id` body as declared by `UpdateSessionInput`; a
`some` field is written, a `none` field is left untouched. -/
structure UpdateSessionInput where
  data : Option SessionData := none
  lastPoint : Option String := none
  subject : Option String := none
  topic : Option String := none
  duration : Option Nat := none
  completed : Option Bool := none
  questionsAnswered : Option Nat := none
  correctAnswers : Option Nat := none
  audioModeEnabled : Option Bool := none
  textModeEnabled : Option Bool := none
  photoUploadsCount : Option Nat := none
  whiteboardSubmissions : Option Nat := none
  aiInteractions : Option Nat := none
  spreadingJoyActions : Option Nat := none
  deriving Repr, DecidableEq

/-! ## Subject classifier adapter (`detectAllSubjectsFromConversation`) -/

/-- One entry of the oracle's parsed `subjects` array before normalisation.
`none` models an absent / falsy field. -/
structure RawSubject where
  subject : Option String := none
  topic : Option String := none
  questionCount : Option Int := none
  deriving Repr, DecidableEq

/-- Outcome of the oracle round-trip as seen by the adapter. -/
inductive OracleResp where
  /-- The fetch (or response decoding) threw: handled by the outer catch. -/
  | failure : OracleResp
  /-- The response text did not parse as JSON (or had no usable shape). -/
  | malformed : OracleResp
  /-- Parsed JSON whose `subjects` field is the given array (`[]` when the
  field is absent). -/
  | parsed : List RawSubject → OracleResp
  deriving Repr, DecidableEq

/-- Substring test, `text.includes(pat)` for a non-empty pattern. -/
def strContains (s pat : String) : Bool := (s.splitOn pat).length != 1

/-- `msg.text.toLowerCase()` contains one of the visual-content keywords. -/
def hasVisualKeyword (t : String) : Bool :=
  let lower := t.toLower
  strContains lower "drawn" || strContains lower "drawing" ||
    strContains lower "image" || strContains lower "whiteboard" ||
    strContains lower "uploaded" || strContains lower "shape" ||
    strContains lower "diagram"

/-- The relevance filter at the top of `detectAllSubjectsFromConversation`:
user text messages longer than 2 characters, plus bot messages that
describe drawn/uploaded visual content. -/
def relevantMessageFilter (msgs : List Message) : List Message :=
  msgs.filter fun msg =>
    (msg.sender == "user" &&
      (match msg.text with
       | some t => decide (2 < t.length)
       | none => false)) ||
    (msg.sender == "bot" &&
      (match msg.text with
       | some t => hasVisualKeyword t
       | none => false))

/-- One fully normalised subject bucket returned to callers. -/
structure SubjectBucket where
  subject : String
  topic : Option String
  questionCount : Nat
  deriving Repr, DecidableEq

/-- Normalisation of one raw oracle entry:
`subject || 'Unknown'`, `topic || null`, `Math.max(1, parseInt(c) || 1)`. -/
def normalizeRaw (r : RawSubject) : SubjectBucket :=
  { subject := r.subject.getD "Unknown"
    topic := r.topic
    questionCount := (max 1 (r.questionCount.getD 1)).toNat }

/-- Stable insertion (descending by `questionCount`) used to model the
JavaScript `sort((a, b) => b.questionCount - a.questionCount)`. -/
def insertByCount (a : SubjectBucket) : List SubjectBucket → List SubjectBucket
  | [] => [a]
  | b :: l =>
    if a.questionCount ≤ b.questionCount then b :: insertByCount a l
    else a :: b :: l

/-- Stable descending sort by `questionCount`. -/
def sortByCountDesc (l : List SubjectBucket) : List SubjectBucket :=
  l.foldl (fun acc a => insertByCount a acc) []

/-- The normalised, count-sorted oracle entries excluding the placeholder
subjects "Unknown" and "General" (the `uniqueSubjects` local). -/
def uniqueRealSubjects (subjects : List RawSubject) : List SubjectBucket :=
  (sortByCountDesc (subjects.map normalizeRaw)).filter fun s =>
    s.subject ≠ "Unknown" && s.subject ≠ "General"

/-- `detectAllSubjectsFromConversation(messages)` with the oracle outcome
made explicit.  Mirrors part_011 lines 2559–2705. -/
def detectAllSubjectsFromConversation (oracle : OracleResp) (messages : List Message) :
    List SubjectBucket :=
  let relevantMessages := relevantMessageFilter messages
  if relevantMessages.length = 0 then
    [⟨"Unknown", none, 0⟩]
  else
    match oracle with
    | .failure => [⟨"Unknown", none, 1⟩]
    | .malformed => [⟨"Unknown", none, relevantMessages.length⟩]
    | .parsed subjects =>
      if subjects.length = 0 then
        [⟨"Unknown", none, relevantMessages.length⟩]
      else
        let uniqueSubjects := uniqueRealSubjects subjects
        if uniqueSubjects.length = 0 then
          [⟨"Unknown", none, relevantMessages.length⟩]
        else if uniqueSubjects.length = 1 then
          uniqueSubjects
        else
          [⟨"General Practice - Mixed: " ++
              String.intercalate ", " (uniqueSubjects.map (·.subject)),
            none,
            (uniqueSubjects.map (·.questionCount)).sum⟩]

/-- The dominant subject read by the fire-and-forget callback in
`updateSession` (`allSubjects[0]`, unguarded). -/
def dominantSubject (oracle : OracleResp) (messages : List Message) :
    Option SubjectBucket :=
  (detectAllSubjectsFromConversation oracle messages).head?

/-! ## Star progress (`calculateStarProgress`) -/

/-- A `UserActivity` row for one (user, day). -/
structure UserActivity where
  studyMinutes : Nat := 0
  questionsAnswered : Nat := 0
  photoQuestions : Nat := 0
  positiveActions : Nat := 0
  starProgress : Int := 0
  deriving Repr, DecidableEq

/-- The pure weighted-sum computation inside `calculateStarProgress`
(part_011 lines 2458–2488), over exact rationals. -/
def starProgressOf (studyMinutes questionsAnswered : Nat) : Int :=
  let studyProgress : ℚ := min ((studyMinutes : ℚ) / 120 * 100) 100
  let questionsProgress : ℚ := min ((questionsAnswered : ℚ) / 20 * 100) 100
  let streakProgress : ℚ := if 0 < studyMinutes then 100 else 0
  let totalProgress : ℚ :=
    studyProgress * (4 / 10) + questionsProgress * (3 / 10) +
      streakProgress * (3 / 10)
  min (round totalProgress) 100

/-- `calculateStarProgress`: computes today's star progress and persists it
back onto today's `UserActivity` row. -/
def calculateStarProgress (activity : UserActivity) : Int × UserActivity :=
  let progress := starProgressOf activity.studyMinutes activity.questionsAnswered
  (progress, { activity with starProgress := progress })

/-- Modelled from the spec (§4.3 `computeStarProgress` contract), for the
refinement comparison in claim C9: `round(40·min(m/120,1) +
30·min(q/20,1) + 30·[m>0])` clamped to `[0, 100]`. -/
def starProgressSpec (studyMinutes questionsAnswered : Nat) : Int :=
  max 0 (min
    (round ((40 : ℚ) * min ((studyMinutes : ℚ) / 120) 1 +
      30 * min ((questionsAnswered : ℚ) / 20) 1 +
      30 * (if 0 < studyMinutes then (1 : ℚ) else 0)))
    100)

/-! ## Session store accessor -/

/-- A session is "true active": not completed and with no resume marker
(`lastPoint` null or the empty string). -/
def isTrueActive (s : Session) : Bool :=
  !s.completed && (s.lastPoint == none || s.lastPoint == some "")

/-- Stable insertion keeping a list ordered descending by `updatedAt`
(models Prisma's `orderBy: { updatedAt: 'desc' }`). -/
def insertByUpdatedDesc (s : Session) : List Session → List Session
  | [] => [s]
  | t :: ts =>
    if s.updatedAt ≤ t.updatedAt then t :: insertByUpdatedDesc s ts
    else s :: t :: ts

/-- Sort a list of sessions descending by `updatedAt`. -/
def sortByUpdatedDesc (l : List Session) : List Session :=
  l.foldl (fun acc s => insertByUpdatedDesc s acc) []

/-- The `findMany` at the top of `getActiveSession`: the user's sessions
with `completed = false` and `lastPoint ∈ {null, ""}`, newest first. -/
def activeList (db : DB) (userId : String) : List Session :=
  sortByUpdatedDesc
    (db.sessions.filter fun s => s.userId == userId && isTrueActive s)

/-- The duplicate-selection loop of `getActiveSession`: keep the first
session with non-null `data`, mark every other id for deletion. -/
def pickValidLoop : List Session → Option Session → List Nat →
    Option Session × List Nat
  | [], valid, dels => (valid, dels)
  | s :: rest, valid, dels =>
    if s.data ≠ none ∧ valid = none then pickValidLoop rest (some s) dels
    else pickValidLoop rest valid (dels ++ [s.id])

/-- The number of the user's true-active sessions — the quantity the
"at most one true-active session per user" invariant bounds. -/
def activeCount (db : DB) (userId : String) : Nat :=
  (db.sessions.filter fun s => s.userId == userId && isTrueActive s).length

/-- The first session (in list order) with non-null `data`; characterises
the `validSession` selected by `pickValidLoop`. -/
def firstWithData : List Session → Option Session
  | [] => none
  | s :: rest => if s.data ≠ none then some s else firstWithData rest

/-- The ids of every session except the first one with non-null `data`;
characterises the `sessionsToDelete` accumulated by `pickValidLoop`. -/
def idsExceptFirstData : List Session → List Nat
  | [] => []
  | s :: rest =>
    if s.data ≠ none then rest.map (·.id) else s.id :: idsExceptFirstData rest

/-- Delete each listed session id in order; a failing deletion (`fail id`)
is logged and skipped without aborting the remaining deletions. -/
def deleteEach (fail : Nat → Bool) (dels : List Nat) (db : DB) : DB :=
  dels.foldl
    (fun d i =>
      if fail i then d
      else { d with sessions := d.sessions.filter fun s => s.id ≠ i })
    db

/-- `getActiveSession(userId)` (part_011 lines 1785–1844): returns the
user's single active session, repairing duplicate actives by keeping the
most recent one with data (or the most recent overall) and best-effort
deleting the rest.  `fail` tells which individual deletions fail. -/
def getActiveSession (fail : Nat → Bool) (db : DB) (userId : String) :
    Option Session × DB :=
  let activeSessions := activeList db userId
  match activeSessions with
  | [] => (none, db)
  | [s] => (some s, db)
  | a :: rest =>
    let (valid, dels) := pickValidLoop (a :: rest) none []
    let (kept, dels2) :=
      match valid with
      | some k => (some k, dels)
      | none => (some a, dels.erase a.id)
    (kept, deleteEach fail dels2 db)

/-- A freshly inserted session row: schema defaults overridden by the
spread of the create-input fields; `completed` defaults to `false`. -/
def newSession (id : Nat) (now : Nat) (userId : String)
    (input : CreateSessionInput) : Session :=
  { id := id
    userId := userId
    data := input.data
    lastPoint := input.lastPoint
    subject := input.subject
    topic := input.topic
    createdAt := now
    updatedAt := now }

/-- `createSession(userId, data)` (part_011 lines 1533–1563): returns the
existing active session if one is found, otherwise inserts a new row. -/
def createSession (fail : Nat → Bool) (now : Nat) (db : DB) (userId : String)
    (input : CreateSessionInput) : Session × DB :=
  match getActiveSession fail db userId with
  | (some existing, db2) => (existing, db2)
  | (none, db2) =>
    let s := newSession db2.nextId now userId input
    (s, { db2 with sessions := db2.sessions ++ [s], nextId := db2.nextId + 1 })

/-- Apply an `UpdateSessionInput` patch to a row and bump `updatedAt`. -/
def applyPatch (now : Nat) (p : UpdateSessionInput) (s : Session) : Session :=
  { s with
    data := if p.data = none then s.data else p.data
    lastPoint := if p.lastPoint = none then s.lastPoint else p.lastPoint
    subject := if p.subject = none then s.subject else p.subject
    topic := if p.topic = none then s.topic else p.topic
    duration := p.duration.getD s.duration
    completed := p.completed.getD s.completed
    questionsAnswered := p.questionsAnswered.getD s.questionsAnswered
    correctAnswers := p.correctAnswers.getD s.correctAnswers
    audioModeEnabled := p.audioModeEnabled.getD s.audioModeEnabled
    textModeEnabled := p.textModeEnabled.getD s.textModeEnabled
    photoUploadsCount := p.photoUploadsCount.getD s.photoUploadsCount
    whiteboardSubmissions := p.whiteboardSubmissions.getD s.whiteboardSubmissions
    aiInteractions := p.aiInteractions.getD s.aiInteractions
    spreadingJoyActions := p.spreadingJoyActions.getD s.spreadingJoyActions
    updatedAt := now }

/-- Replace the session with the given id by `f` applied to it. -/
def mapSession (db : DB) (sessionId : Nat) (f : Session → Session) : DB :=
  { db with sessions := db.sessions.map fun s => if s.id = sessionId then f s else s }

/-- The non-welcome messages of a transcript (`msg.id !== '1'`). -/
def realMessagesOf (d : SessionData) : List Message :=
  d.messages.filter fun msg => msg.id ≠ "1"

/-- `Math.round(x * (count / total))` for natural inputs, evaluated
exactly: `⌊q + 1/2⌋ = (2·x·count + total) / (2·total)` in integer
division.  The lemma `jsRoundRatio_eq_round` below proves this equals
`round` of the exact rational; `total = 0` follows the `x / 0 = 0`
convention of `ℚ`. -/
def jsRoundRatio (x count total : Nat) : Int :=
  if total = 0 then 0
  else ((2 * x * count + total : Nat) : Int) / ((2 * total : Nat) : Int)

/-- One Progress row of the proportional-attribution loop in
`updateSession` (part_011 lines 1714–1749): `proportion =
questionCount / totalQuestions`, `timeSpent` and `questionsCorrect`
rounded from `duration · proportion` and `correctAnswers · proportion`. -/
def mkProgressRecord (s : Session) (totalQuestions : Nat)
    (nSubjects : Nat) (b : SubjectBucket) : Progress :=
  let subjectQuestionsCorrect : Int :=
    jsRoundRatio s.correctAnswers b.questionCount totalQuestions
  { userId := s.userId
    subject := b.subject
    topic := b.topic
    timeSpent := jsRoundRatio s.duration b.questionCount totalQuestions
    questionsAttempted := b.questionCount
    questionsCorrect := subjectQuestionsCorrect
    questionsWrong := max 0 ((b.questionCount : Int) - subjectQuestionsCorrect)
    sessionId := s.id
    isMultiSubjectSession := decide (1 < nSubjects)
    totalSubjectsInSession := nSubjects }

/-- `updateSession(sessionId, data)` (part_011 lines 1620–1761): apply the
patch; when the patch sets `completed: true` and the updated row has data
with at least one real message, classify the conversation, back-fill the
session's subject if unset, and create one Progress row per returned
bucket.  Returns `none` when the id does not exist (Prisma `P2025`).  The
unawaited background recomputations are not part of the sequential model. -/
def updateSession (now : Nat) (oracle : OracleResp) (db : DB)
    (sessionId : Nat) (patch : UpdateSessionInput) :
    Option (Session × DB) :=
  match db.sessions.find? (fun s => s.id = sessionId) with
  | none => none
  | some s0 =>
    let session := applyPatch now patch s0
    let db1 := mapSession db sessionId (fun _ => session)
    if patch.completed = some true then
      match session.data with
      | none => some (session, db1)
      | some sessionData =>
        let realMessages := realMessagesOf sessionData
        if realMessages.length = 0 then some (session, db1)
        else
          let questionsAsked :=
            (realMessages.filter fun msg => msg.sender == "user").length
          let allSubjects := detectAllSubjectsFromConversation oracle realMessages
          let db2 :=
            if session.subject = none ∧ 0 < allSubjects.length then
              mapSession db1 sessionId fun t =>
                { t with
                  subject := some (allSubjects.headD ⟨"Unknown", none, 0⟩).subject
                  topic := (allSubjects.headD ⟨"Unknown", none, 0⟩).topic }
            else db1
          let records := allSubjects.map
            (mkProgressRecord session questionsAsked allSubjects.length)
          some (session, { db2 with progress := db2.progress ++ records })
    else some (session, db1)

/-- Prisma error codes that matter to the core. -/
inductive PrismaErr where
  | P2025 : PrismaErr
  | other : String → PrismaErr
  deriving Repr, DecidableEq

/-- `prisma.session.delete`: removes the row or raises `P2025` when absent. -/
def prismaSessionDelete (db : DB) (sessionId : Nat) :
    Except PrismaErr (Session × DB) :=
  match db.sessions.find? (fun s => s.id = sessionId) with
  | none => .error .P2025
  | some s =>
    .ok (s, { db with sessions := db.sessions.filter fun t => t.id ≠ sessionId })

/-- `deleteSession(sessionId)` (part_011 lines 1763–1776): a `P2025`
("already deleted") error is converted into a successful `none`; any other
error is rethrown. -/
def deleteSession (db : DB) (sessionId : Nat) :
    Except PrismaErr (Option Session × DB) :=
  match prismaSessionDelete db sessionId with
  | .ok (s, db2) => .ok (some s, db2)
  | .error e => if e = .P2025 then .ok (none, db) else .error e

/-- Typed failures of `resumeSession`. -/
inductive ResumeErr where
  | notFound : ResumeErr
  | invalidState : ResumeErr
  deriving Repr, DecidableEq

/-- `resumeSession(sessionId, userId)` (part_011 lines 1952–1970): fails if
the session is missing or owned by another user, or already completed;
otherwise returns the session without mutating anything. -/
def resumeSession (db : DB) (sessionId : Nat) (userId : String) :
    Except ResumeErr Session :=
  match db.sessions.find? (fun s => s.id = sessionId && s.userId == userId) with
  | none => .error .notFound
  | some s => if s.completed then .error .invalidState else .ok s

/-! ## Cleanup / retention engine -/

/-- `adminService.getSettings()`: creates/returns the defaults
(`dataRetention = true`, `retentionDuration = '30'`) when no settings row
exists. -/
def getSettings (stored : Option AdminSettings) : AdminSettings :=
  stored.getD ⟨true, "30"⟩

/-- Milliseconds per calendar day (`setDate(getDate() - n)` is day
arithmetic; the model works at millisecond granularity). -/
def msPerDay : Int := 86400000

/-- `cleanupSessionsByRetentionPolicy()` (part_011 lines 1976–2009): when
retention is disabled or set to "never", `deleteMany({})` removes every
session; otherwise sessions with `updatedAt` older than the cutoff are
removed.  `parseInt` of a non-numeric duration is modelled as `none`
(`NaN`), for which the `retentionDays > 0` guard fails. -/
def cleanupSessionsByRetentionPolicy (stored : Option AdminSettings)
    (now : Int) (db : DB) : Nat × DB :=
  let settings := getSettings stored
  if !settings.dataRetention || settings.retentionDuration == "never" then
    (db.sessions.length, { db with sessions := [] })
  else
    let durationStr :=
      if settings.retentionDuration = "" then "30" else settings.retentionDuration
    match durationStr.toInt? with
    | some retentionDays =>
      if 0 < retentionDays then
        let cutoffDate := now - retentionDays * msPerDay
        let keep := db.sessions.filter fun s => ¬((s.updatedAt : Int) < cutoffDate)
        ((db.sessions.filter fun s => (s.updatedAt : Int) < cutoffDate).length,
          { db with sessions := keep })
      else (0, db)
    | none => (0, db)

/-- Parsed retention settings of `CleanupService.getRetentionSettings`:
absent row means the safe default, `"never"` means a `null` duration. -/
structure RetentionSettings where
  enabled : Bool
  durationDays : Option Int
  deriving Repr, DecidableEq

/-- `CleanupService.getRetentionSettings` (cleanup.service.ts lines
15–53). -/
def getRetentionSettings (stored : Option AdminSettings) : RetentionSettings :=
  match stored with
  | none => ⟨true, some 30⟩
  | some s =>
    ⟨s.dataRetention,
      if s.retentionDuration = "never" then none else s.retentionDuration.toInt?⟩

/-- A URL counts as blob storage when it matches the S3 URL pattern. -/
def isS3Url (u : String) : Bool :=
  strContains u ".s3." || strContains u "s3.amazonaws.com"

/-- `extractFileUrlsFromSession` (cleanup.service.ts lines 58–115): all S3
URLs among message attachments, legacy image fields, and `chatHistory`
attachments. -/
def extractFileUrlsFromSession : Option SessionData → List String
  | none => []
  | some d =>
    (d.messages.foldr
      (fun m acc =>
        m.attachments.filter isS3Url ++
          (match m.image with
           | some i => if isS3Url i then [i] else []
           | none => []) ++ acc)
      []) ++
    (d.chatHistory.foldr (fun m acc => m.attachments.filter isS3Url ++ acc) [])

/-- Result record of `cleanupOldSessions`. -/
structure CleanupResult where
  sessionsDeleted : Nat
  filesDeleted : Nat
  errors : Nat
  deriving Repr, DecidableEq

/-- `CleanupService.cleanupOldSessions()` (cleanup.service.ts lines
120–211): when retention is disabled or "never", cleanup is skipped
entirely; otherwise completed sessions older than the cutoff have their S3
files deleted best-effort and are then deleted.  `deleteFileOk` tells which
blob deletions succeed; `failSession` tells which row deletions throw (the
per-session catch counts them and continues). -/
def cleanupOldSessions (stored : Option AdminSettings) (now : Int)
    (s3Configured : Bool) (deleteFileOk : String → Bool)
    (failSession : Nat → Bool) (db : DB) : CleanupResult × DB :=
  let retention := getRetentionSettings stored
  match retention.durationDays with
  | none => (⟨0, 0, 0⟩, db)
  | some durationDays =>
    if !retention.enabled then (⟨0, 0, 0⟩, db)
    else
      let cutoffDate := now - durationDays * msPerDay
      let oldSessions := db.sessions.filter fun s =>
        s.completed && decide ((s.updatedAt : Int) < cutoffDate)
      oldSessions.foldl
        (fun (acc : CleanupResult × DB) s =>
          let (result, d) := acc
          let fileUrls := extractFileUrlsFromSession s.data
          let deletedFiles :=
            if 0 < fileUrls.length ∧ s3Configured = true then
              (fileUrls.filter deleteFileOk).length
            else 0
          if failSession s.id then
            ({ result with
                filesDeleted := result.filesDeleted + deletedFiles
                errors := result.errors + 1 }, d)
          else
            ({ result with
                sessionsDeleted := result.sessionsDeleted + 1
                filesDeleted := result.filesDeleted + deletedFiles },
              { d with sessions := d.sessions.filter fun t => t.id ≠ s.id }))
        (⟨0, 0, 0⟩, db)

/-! ## Streak computation (`getProgressMetrics`, part_011 lines 2349–2405)

Sessions are abstracted to the `Int` day numbers of their
midnight-normalised `createdAt`; `uniqueDates` plus the descending sort
become `sortedUniqueDaysDesc`. -/

/-- Insert a day into a strictly-descending list, skipping duplicates
(the `Set` of ISO day strings, enumerated newest first). -/
def insertDayDesc (x : Int) : List Int → List Int
  | [] => [x]
  | y :: ys =>
    if y < x then x :: y :: ys
    else if x = y then y :: ys
    else y :: insertDayDesc x ys

/-- The deduplicated day list sorted descending. -/
def sortedUniqueDaysDesc (days : List Int) : List Int :=
  days.foldl (fun acc d => insertDayDesc d acc) []

/-- The current-streak loop: count matching expected days
(`today`, `today - 1`, …) from the front, stopping at the first break. -/
def currentStreakLoop : List Int → Int → Nat
  | [], _ => 0
  | d :: rest, expected =>
    if d = expected then currentStreakLoop rest (expected - 1) + 1 else 0

/-- The longest-streak loop over adjacent day differences: `temp` is the
running streak, `best` the recorded maximum (updated only when the streak
extends); the final answer is `max best temp`. -/
def longestStreakAux : List Int → Int → Nat → Nat → Nat
  | [], _, temp, best => max best temp
  | d :: rest, prev, temp, best =>
    if prev - d = 1 then longestStreakAux rest d (temp + 1) (max best (temp + 1))
    else longestStreakAux rest d 1 best

/-- The longest-streak loop started as in the source (`tempStreak = 1`,
`longestStreak = 0`, iterating from the second element). -/
def longestStreakLoop : List Int → Nat
  | [] => 0
  | d :: rest => longestStreakAux rest d 1 0

/-- The streak portion of `getProgressMetrics`: given the session-day list
and today's day number, returns `(currentStreak, longestStreak)`. -/
def computeStreaks (days : List Int) (today : Int) : Nat × Nat :=
  if days.length = 0 then (0, 0)
  else
    let sortedDates := sortedUniqueDaysDesc days
    let currentStreak := currentStreakLoop sortedDates today
    (currentStreak, max (longestStreakLoop sortedDates) currentStreak)

/-- Length of the initial run of consecutive (step −1) days of a
descending day list; characterisation helper for the longest-streak
loop. -/
def runFrom : List Int → Nat
  | [] => 0
  | [_] => 1
  | a :: b :: rest => if a - b = 1 then runFrom (b :: rest) + 1 else 1

/-- The maximum initial-run length over all suffixes: for a
strictly-descending day list this is the longest run of consecutive
calendar days anywhere in it. -/
def maxRunList : List Int → Nat
  | [] => 0
  | a :: rest => max (runFrom (a :: rest)) (maxRunList rest)

/-! ## Theorems -/

/-- The integer-division formulation of `Math.round(x * (count / total))`
agrees with rounding the exact rational. -/
lemma jsRoundRatio_eq_round (x count total : Nat) :
    jsRoundRatio x count total =
      round ((x : ℚ) * ((count : ℚ) / (total : ℚ))) := by
  unfold jsRoundRatio
  by_cases h0 : total = 0
  · simp [h0]
  · rw [if_neg h0, round_eq]
    have htQ : ((total : ℚ)) ≠ 0 := Nat.cast_ne_zero.mpr h0
    have harg : (x : ℚ) * ((count : ℚ) / (total : ℚ)) + 1 / 2 =
        (((2 * x * count + total : Nat) : Int) : ℚ) / ((2 * total : Nat) : ℚ) := by
      push_cast
      field_simp
      ring
    rw [harg]
    rw [Rat.floor_intCast_div_natCast]

lemma starProgressOf_eq_spec (m q : Nat) :
    starProgressOf m q = starProgressSpec m q := by
  unfold starProgressOf starProgressSpec
  have h1 : min ((m : ℚ) / 120 * 100) 100 * (4 / 10) =
      (40 : ℚ) * min ((m : ℚ) / 120) 1 := by
    rw [min_mul_of_nonneg _ _ (by norm_num : (0 : ℚ) ≤ 4 / 10),
      mul_min_of_nonneg _ _ (by norm_num : (0 : ℚ) ≤ 40)]
    congr 1 <;> ring
  have h2 : min ((q : ℚ) / 20 * 100) 100 * (3 / 10) =
      (30 : ℚ) * min ((q : ℚ) / 20) 1 := by
    rw [min_mul_of_nonneg _ _ (by norm_num : (0 : ℚ) ≤ 3 / 10),
      mul_min_of_nonneg _ _ (by norm_num : (0 : ℚ) ≤ 30)]
    congr 1 <;> ring
  have h3 : (if 0 < m then (100 : ℚ) else 0) * (3 / 10) =
      (30 : ℚ) * (if 0 < m then (1 : ℚ) else 0) := by
    split <;> norm_num
  simp only [h1, h2, h3]
  have htotal : (0 : ℚ) ≤ 40 * min ((m : ℚ) / 120) 1 +
      30 * min ((q : ℚ) / 20) 1 + 30 * (if 0 < m then (1 : ℚ) else 0) := by
    have a1 : (0 : ℚ) ≤ min ((m : ℚ) / 120) 1 := le_min (by positivity) (by norm_num)
    have a2 : (0 : ℚ) ≤ min ((q : ℚ) / 20) 1 := le_min (by positivity) (by norm_num)
    have a3 : (0 : ℚ) ≤ (if 0 < m then (1 : ℚ) else 0) := by split <;> norm_num
    nlinarith
  have hround : (0 : ℤ) ≤ round (40 * min ((m : ℚ) / 120) 1 +
      30 * min ((q : ℚ) / 20) 1 + 30 * (if 0 < m then (1 : ℚ) else 0)) := by
    rw [round_eq]
    exact Int.floor_nonneg.mpr (by linarith)
  rw [max_eq_right (le_min hround (by norm_num))]

lemma starProgressOf_nonneg (m q : Nat) : 0 ≤ starProgressOf m q := by
  rw [starProgressOf_eq_spec]
  exact le_max_left 0 _

lemma starProgressOf_le (m q : Nat) : starProgressOf m q ≤ 100 := by
  unfold starProgressOf
  exact min_le_right _ _

/-- C9: for any non-negative activity counters, `calculateStarProgress`
computes `round(40·min(studyMinutes/120,1) + 30·min(questionsAnswered/20,1)
+ 30·[studyMinutes>0])` clamped to `[0,100]`, an integer in `[0,100]`, and
persists it back onto today's `UserActivity` row as `starProgress`. -/
theorem starProgress_spec_and_bounds (activity : UserActivity) :
    (calculateStarProgress activity).1 =
      starProgressSpec activity.studyMinutes activity.questionsAnswered ∧
    0 ≤ (calculateStarProgress activity).1 ∧
    (calculateStarProgress activity).1 ≤ 100 ∧
    (calculateStarProgress activity).2.starProgress =
      (calculateStarProgress activity).1 := by
  refine ⟨starProgressOf_eq_spec _ _, starProgressOf_nonneg _ _,
    starProgressOf_le _ _, rfl⟩

/-- C8: `deleteSession` is idempotent: every call succeeds, and deleting
the same id again succeeds reporting "already gone" (`none`) with the
state unchanged. -/
theorem deleteSession_idempotent (db : DB) (sessionId : Nat) :
    ∃ r db2, deleteSession db sessionId = .ok (r, db2) ∧
      deleteSession db2 sessionId = .ok (none, db2) := by
  unfold deleteSession prismaSessionDelete
  cases hf : db.sessions.find? (fun s => s.id = sessionId) with
  | none => exact ⟨none, db, by simp [hf], by simp [hf]⟩
  | some s =>
    refine ⟨some s,
      { db with sessions := db.sessions.filter fun t => t.id ≠ sessionId },
      by simp [hf], ?_⟩
    have hnone : (db.sessions.filter fun t => decide (t.id ≠ sessionId)).find?
        (fun s => decide (s.id = sessionId)) = none := by
      rw [List.find?_eq_none]
      intro x hx
      have := List.of_mem_filter hx
      simpa using this
    simp only [deleteSession, prismaSessionDelete]
    rw [hnone]
    simp

lemma detectAll_length_one (oracle : OracleResp) (messages : List Message) :
    (detectAllSubjectsFromConversation oracle messages).length = 1 := by
  unfold detectAllSubjectsFromConversation
  by_cases h0 : (relevantMessageFilter messages).length = 0
  · simp [h0]
  · cases oracle with
    | failure => simp [h0]
    | malformed => simp [h0]
    | parsed subjects =>
      simp only [h0, if_false]
      by_cases hs : subjects.length = 0
      · simp [hs]
      · simp only [hs, if_false]
        by_cases hu0 : (uniqueRealSubjects subjects).length = 0
        · simp [hu0]
        · by_cases hu1 : (uniqueRealSubjects subjects).length = 1
          · simp [hu0, hu1]
          · simp [hu0, hu1]

lemma two_mem_ne_le_length {α : Type} {l : List α} {a b : α}
    (ha : a ∈ l) (hb : b ∈ l) (hab : a ≠ b) : 2 ≤ l.length := by
  match l with
  | [] => cases ha
  | [x] =>
    rw [List.mem_singleton] at ha hb
    exact absurd (ha.trans hb.symm) hab
  | x :: y :: rest => simp [List.length_cons]

/-- C10 (implicit safety claim): `detectAllSubjectsFromConversation` always
returns exactly one bucket, so the unguarded first-element access in
`updateSession`'s classification callback never reads an empty list, and a
session completion appends at most one Progress record. -/
theorem classifier_single_bucket_safety :
    (∀ (oracle : OracleResp) (messages : List Message),
      (detectAllSubjectsFromConversation oracle messages).length = 1) ∧
    (∀ (oracle : OracleResp) (messages : List Message),
      dominantSubject oracle messages ≠ none) ∧
    (∀ (now : Nat) (oracle : OracleResp) (db : DB) (sessionId : Nat)
       (patch : UpdateSessionInput) (result : Session × DB),
      updateSession now oracle db sessionId patch = some result →
      result.2.progress.length ≤ db.progress.length + 1) := by
  refine ⟨detectAll_length_one, ?_, ?_⟩
  · intro oracle messages
    unfold dominantSubject
    have h := detectAll_length_one oracle messages
    cases hd : detectAllSubjectsFromConversation oracle messages with
    | nil => rw [hd] at h; cases h
    | cons a l => simp
  · intro now oracle db sessionId patch result h
    unfold updateSession at h
    cases hf : db.sessions.find? (fun s => s.id = sessionId) with
    | none => rw [hf] at h; cases h
    | some s0 =>
      rw [hf] at h
      dsimp only at h
      split at h
      · split at h
        · cases h
          simp [mapSession]
        · split at h
          · cases h
            simp [mapSession]
          · cases h
            simp only [apply_ite (fun d : DB => d.progress), mapSession,
              List.length_append, List.length_map, detectAll_length_one,
              ite_self]
            omega
      · cases h
        simp [mapSession]

/-- C4: when the parsed oracle output contains two entries with distinct
real subject names (placeholders "Unknown"/"General" excluded), the result
is one synthetic mixed-practice bucket whose label joins all real subject
names and whose `questionCount` is the sum of their counts; callers never
receive more than one bucket; and a malformed oracle response yields the
single bucket `{subject := "Unknown", topic := none, questionCount := the
number of analysed messages}`. -/
theorem classifier_collapse_and_fallback
    (messages : List Message) (subjects : List RawSubject)
    (a b : SubjectBucket)
    (hrel : (relevantMessageFilter messages).length ≠ 0)
    (ha : a ∈ uniqueRealSubjects subjects)
    (hb : b ∈ uniqueRealSubjects subjects)
    (hab : a.subject ≠ b.subject) :
    detectAllSubjectsFromConversation (.parsed subjects) messages =
      [⟨"General Practice - Mixed: " ++
          String.intercalate ", " ((uniqueRealSubjects subjects).map (·.subject)),
        none,
        ((uniqueRealSubjects subjects).map (·.questionCount)).sum⟩] ∧
    (∀ (oracle : OracleResp) (msgs : List Message),
      (detectAllSubjectsFromConversation oracle msgs).length = 1) ∧
    (∀ msgs : List Message,
      detectAllSubjectsFromConversation .malformed msgs =
        [⟨"Unknown", none, (relevantMessageFilter msgs).length⟩]) := by
  have h2 : 2 ≤ (uniqueRealSubjects subjects).length :=
    two_mem_ne_le_length ha hb (fun he => hab (he ▸ rfl))
  have hsne : subjects.length ≠ 0 := by
    intro hs
    rw [List.length_eq_zero] at hs
    subst hs
    simp [uniqueRealSubjects, sortByCountDesc] at ha
  refine ⟨?_, detectAll_length_one, ?_⟩
  · unfold detectAllSubjectsFromConversation
    simp only [hrel, if_false, hsne]
    rw [if_neg (by omega), if_neg (by omega)]
  · intro msgs
    unfold detectAllSubjectsFromConversation
    by_cases h0 : (relevantMessageFilter msgs).length = 0
    · simp [h0]
    · simp [h0]

/-- Witness for C4 at a concrete transcript and oracle response. -/
theorem classifier_collapse_and_fallback_witness :
    detectAllSubjectsFromConversation
      (.parsed [{ subject := some "Mathematics", topic := some "Algebra",
                  questionCount := some 7 },
                { subject := some "Science", topic := some "Physics",
                  questionCount := some 3 }])
      [{ id := "2", sender := "user", text := some "what is algebra" }] =
      [{ subject := "General Practice - Mixed: Mathematics, Science",
         topic := none, questionCount := 10 }] := by
  have h := classifier_collapse_and_fallback
    [{ id := "2", sender := "user", text := some "what is algebra" }]
    [{ subject := some "Mathematics", topic := some "Algebra",
       questionCount := some 7 },
     { subject := some "Science", topic := some "Physics",
       questionCount := some 3 }]
    { subject := "Mathematics", topic := some "Algebra", questionCount := 7 }
    { subject := "Science", topic := some "Physics", questionCount := 3 }
    (by decide) (by decide) (by decide) (by decide)
  exact h.1.trans (by decide)

/-- C1 (amended): with a settings row whose retention is disabled or set to
"never", the scheduler-style `cleanupSessionsByRetentionPolicy` deletes
every session unconditionally regardless of age, while the file-aware
`CleanupService.cleanupOldSessions` instead skips cleanup entirely and
deletes nothing. -/
theorem retention_never_policy_divergence (s : AdminSettings) (now : Int)
    (db : DB) (s3Configured : Bool) (deleteFileOk : String → Bool)
    (failSession : Nat → Bool)
    (h : s.dataRetention = false ∨ s.retentionDuration = "never") :
    (cleanupSessionsByRetentionPolicy (some s) now db).2.sessions = [] ∧
    (cleanupSessionsByRetentionPolicy (some s) now db).1 =
      db.sessions.length ∧
    cleanupOldSessions (some s) now s3Configured deleteFileOk failSession db =
      (⟨0, 0, 0⟩, db) := by
  have hcond : (!(getSettings (some s)).dataRetention ||
      (getSettings (some s)).retentionDuration == "never") = true := by
    cases h with
    | inl h1 => simp [getSettings, h1]
    | inr h2 => simp [getSettings, h2]
  refine ⟨?_, ?_, ?_⟩
  · unfold cleanupSessionsByRetentionPolicy
    rw [if_pos hcond]
  · unfold cleanupSessionsByRetentionPolicy
    rw [if_pos hcond]
  · unfold cleanupOldSessions getRetentionSettings
    dsimp only
    cases h with
    | inl h1 =>
      cases hd : (if s.retentionDuration = "never" then none
          else s.retentionDuration.toInt?) with
      | none => rfl
      | some n => simp [h1]
    | inr h2 => simp [h2]

/-- Witness for C1 at concrete settings and state. -/
theorem retention_never_policy_divergence_witness :
    (cleanupSessionsByRetentionPolicy (some ⟨true, "never"⟩) 1000000
        { sessions := [{ id := 1, userId := "u", updatedAt := 999000 }],
          progress := [], nextId := 2 }).2.sessions = [] ∧
    (cleanupSessionsByRetentionPolicy (some ⟨true, "never"⟩) 1000000
        { sessions := [{ id := 1, userId := "u", updatedAt := 999000 }],
          progress := [], nextId := 2 }).1 = 1 ∧
    cleanupOldSessions (some ⟨true, "never"⟩) 1000000 true (fun _ => true)
        (fun _ => false)
        { sessions := [{ id := 1, userId := "u", updatedAt := 999000 }],
          progress := [], nextId := 2 } =
      (⟨0, 0, 0⟩,
        { sessions := [{ id := 1, userId := "u", updatedAt := 999000 }],
          progress := [], nextId := 2 }) := by
  have h := retention_never_policy_divergence ⟨true, "never"⟩ 1000000
    { sessions := [{ id := 1, userId := "u", updatedAt := 999000 }],
      progress := [], nextId := 2 } true (fun _ => true) (fun _ => false)
    (Or.inr rfl)
  exact ⟨h.1, h.2.1, h.2.2⟩

/-- Counterexample for C1 as stated: with `retentionDuration = "never"`,
the file-aware expired-session cleanup (`cleanupOldSessions`) deletes
nothing — the session updated seconds ago survives — contradicting "the
expired-session cleanup operation deletes every session unconditionally"
for that operation. -/
theorem retention_never_cleanupOldSessions_counterexample :
    cleanupOldSessions (some ⟨true, "never"⟩) 1000000 true (fun _ => true)
        (fun _ => false)
        { sessions := [{ id := 1, userId := "u", updatedAt := 999000 }],
          progress := [], nextId := 2 } =
      (⟨0, 0, 0⟩,
        { sessions := [{ id := 1, userId := "u", updatedAt := 999000 }],
          progress := [], nextId := 2 }) ∧
    ({ sessions := [{ id := 1, userId := "u", updatedAt := 999000 }],
       progress := [], nextId := 2 } : DB).sessions ≠ [] := by
  constructor
  · rfl
  · decide

/-- Concrete transcript for claim C3: the welcome message plus ten real
user questions. -/
def c3Messages : List Message :=
  [{ id := "1", sender := "bot", text := some "welcome" },
   { id := "2", sender := "user", text := some "question 01" },
   { id := "3", sender := "user", text := some "question 02" },
   { id := "4", sender := "user", text := some "question 03" },
   { id := "5", sender := "user", text := some "question 04" },
   { id := "6", sender := "user", text := some "question 05" },
   { id := "7", sender := "user", text := some "question 06" },
   { id := "8", sender := "user", text := some "question 07" },
   { id := "9", sender := "user", text := some "question 08" },
   { id := "10", sender := "user", text := some "question 09" },
   { id := "11", sender := "user", text := some "question 10" }]

/-- Concrete session for claim C3: ten questions answered, six correct. -/
def c3Session : Session :=
  { id := 1, userId := "u", data := some { messages := c3Messages },
    questionsAnswered := 10, correctAnswers := 6 }

/-- Concrete database for claim C3. -/
def c3DB : DB := { sessions := [c3Session], progress := [], nextId := 2 }

/-- Concrete oracle response for claim C3: two subjects with question
counts 7 and 3. -/
def c3Oracle : OracleResp :=
  .parsed [{ subject := some "Mathematics", topic := some "Algebra",
             questionCount := some 7 },
           { subject := some "Science", topic := some "Physics",
             questionCount := some 3 }]

/-- Counterexample for C3 as stated: completing the session with
`questionsAnswered = 10`, `correctAnswers = 6` and a classification into
two subjects with counts 7 and 3 creates exactly one Progress row, not
two. -/
theorem proportional_attribution_counterexample :
    (updateSession 5 c3Oracle c3DB 1 { completed := some true }).map
        (fun r => r.2.progress.length) = some 1 ∧
    (updateSession 5 c3Oracle c3DB 1 { completed := some true }).map
        (fun r => r.2.progress.length) ≠ some 2 := by
  constructor
  · decide
  · decide

/-- C3 (amended): completing that session yields exactly one Progress row,
for the synthetic combined bucket "General Practice - Mixed: Mathematics,
Science", with `questionsAttempted = 7 + 3 = 10`, `questionsCorrect =
round(6 · 10/10) = 6` and `questionsWrong = 4`. -/
theorem proportional_attribution_single_mixed_bucket :
    (updateSession 5 c3Oracle c3DB 1 { completed := some true }).map
        (fun r => r.2.progress.map fun p =>
          (p.subject, p.questionsAttempted, p.questionsCorrect,
            p.questionsWrong)) =
      some [("General Practice - Mixed: Mathematics, Science", 10, 6, 4)] := by
  decide

/-! ### Sorting and repair lemmas for `getActiveSession` -/

lemma insertByUpdatedDesc_perm (s : Session) (l : List Session) :
    List.Perm (insertByUpdatedDesc s l) (s :: l) := by
  induction l with
  | nil => exact List.Perm.refl _
  | cons t ts ih =>
    unfold insertByUpdatedDesc
    by_cases h : s.updatedAt ≤ t.updatedAt
    · rw [if_pos h]
      exact (ih.cons t).trans (List.Perm.swap s t ts)
    · rw [if_neg h]

lemma mem_insertByUpdatedDesc {a s : Session} {l : List Session} :
    a ∈ insertByUpdatedDesc s l ↔ a = s ∨ a ∈ l := by
  rw [(insertByUpdatedDesc_perm s l).mem_iff, List.mem_cons]

lemma sortByUpdatedDesc_aux_perm (l acc : List Session) :
    List.Perm (l.foldl (fun acc s => insertByUpdatedDesc s acc) acc)
      (acc ++ l) := by
  induction l generalizing acc with
  | nil => simp
  | cons s rest ih =>
    rw [List.foldl_cons]
    refine (ih (insertByUpdatedDesc s acc)).trans ?_
    refine ((insertByUpdatedDesc_perm s acc).append_right rest).trans ?_
    exact List.perm_middle.symm

lemma sortByUpdatedDesc_perm (l : List Session) :
    List.Perm (sortByUpdatedDesc l) l :=
  sortByUpdatedDesc_aux_perm l []

lemma insertByUpdatedDesc_sorted {s : Session} {l : List Session}
    (h : l.Pairwise fun a b => b.updatedAt ≤ a.updatedAt) :
    (insertByUpdatedDesc s l).Pairwise fun a b => b.updatedAt ≤ a.updatedAt := by
  induction l with
  | nil => simp [insertByUpdatedDesc]
  | cons t ts ih =>
    rw [List.pairwise_cons] at h
    unfold insertByUpdatedDesc
    by_cases hle : s.updatedAt ≤ t.updatedAt
    · rw [if_pos hle]
      rw [List.pairwise_cons]
      refine ⟨?_, ih h.2⟩
      intro x hx
      rcases mem_insertByUpdatedDesc.mp hx with rfl | hx2
      · exact hle
      · exact h.1 x hx2
    · rw [if_neg hle]
      rw [List.pairwise_cons]
      refine ⟨?_, List.pairwise_cons.mpr h⟩
      intro x hx
      rcases List.mem_cons.mp hx with rfl | hx2
      · exact le_of_not_le hle
      · exact le_trans (h.1 x hx2) (le_of_not_le hle)

lemma sortByUpdatedDesc_sorted (l : List Session) :
    (sortByUpdatedDesc l).Pairwise fun a b => b.updatedAt ≤ a.updatedAt := by
  have aux : ∀ (l acc : List Session),
      (acc.Pairwise fun a b => b.updatedAt ≤ a.updatedAt) →
      ((l.foldl (fun acc s => insertByUpdatedDesc s acc) acc).Pairwise
        fun a b => b.updatedAt ≤ a.updatedAt) := by
    intro l
    induction l with
    | nil => intro acc h; exact h
    | cons s rest ih =>
      intro acc h
      exact ih _ (insertByUpdatedDesc_sorted h)
  exact aux l [] List.Pairwise.nil

lemma mem_activeList {db : DB} {u : String} {s : Session} :
    s ∈ activeList db u ↔
      s ∈ db.sessions ∧ (s.userId == u && isTrueActive s) = true := by
  unfold activeList
  rw [(sortByUpdatedDesc_perm _).mem_iff, List.mem_filter]

lemma activeList_sorted (db : DB) (u : String) :
    (activeList db u).Pairwise fun a b => b.updatedAt ≤ a.updatedAt :=
  sortByUpdatedDesc_sorted _

lemma activeList_id_pairwise {db : DB} (u : String)
    (hid : db.sessions.Pairwise fun a b => a.id ≠ b.id) :
    (activeList db u).Pairwise fun a b => a.id ≠ b.id := by
  unfold activeList
  rw [(sortByUpdatedDesc_perm _).pairwise_iff Ne.symm]
  exact hid.filter _

lemma pickValidLoop_some_eq (l : List Session) (k : Session) (acc : List Nat) :
    pickValidLoop l (some k) acc = (some k, acc ++ l.map (·.id)) := by
  induction l generalizing acc with
  | nil => simp [pickValidLoop]
  | cons s rest ih =>
    unfold pickValidLoop
    rw [if_neg (by simp)]
    rw [ih]
    simp

lemma pickValidLoop_none_eq (l : List Session) (acc : List Nat) :
    pickValidLoop l none acc = (firstWithData l, acc ++ idsExceptFirstData l) := by
  induction l generalizing acc with
  | nil => simp [pickValidLoop, firstWithData, idsExceptFirstData]
  | cons s rest ih =>
    unfold pickValidLoop firstWithData idsExceptFirstData
    by_cases hd : s.data ≠ none
    · rw [if_pos ⟨hd, rfl⟩, if_pos hd, if_pos hd]
      exact pickValidLoop_some_eq rest s acc
    · rw [if_neg (by simp [hd]), if_neg hd, if_neg hd]
      rw [ih]
      simp

lemma firstWithData_none {l : List Session} (h : firstWithData l = none) :
    ∀ s ∈ l, s.data = none := by
  induction l with
  | nil => intro s hs; cases hs
  | cons t ts ih =>
    unfold firstWithData at h
    by_cases hd : t.data ≠ none
    · rw [if_pos hd] at h; cases h
    · rw [if_neg hd] at h
      intro s hs
      rcases List.mem_cons.mp hs with rfl | hs2
      · exact not_not.mp hd
      · exact ih h s hs2

lemma firstWithData_some {l : List Session} {k : Session}
    (h : firstWithData l = some k) : k ∈ l ∧ k.data ≠ none := by
  induction l with
  | nil => cases h
  | cons t ts ih =>
    unfold firstWithData at h
    by_cases hd : t.data ≠ none
    · rw [if_pos hd] at h
      cases h
      exact ⟨List.mem_cons_self _ _, hd⟩
    · rw [if_neg hd] at h
      exact ⟨List.mem_cons_of_mem _ (ih h).1, (ih h).2⟩

lemma firstWithData_max {l : List Session} {k : Session}
    (hp : l.Pairwise fun a b => b.updatedAt ≤ a.updatedAt)
    (h : firstWithData l = some k) :
    ∀ s ∈ l, s.data ≠ none → s.updatedAt ≤ k.updatedAt := by
  induction l with
  | nil => cases h
  | cons t ts ih =>
    rw [List.pairwise_cons] at hp
    unfold firstWithData at h
    by_cases hd : t.data ≠ none
    · rw [if_pos hd] at h
      cases h
      intro s hs _
      rcases List.mem_cons.mp hs with rfl | hs2
      · exact le_refl _
      · exact hp.1 s hs2
    · rw [if_neg hd] at h
      intro s hs hsd
      rcases List.mem_cons.mp hs with rfl | hs2
      · exact absurd hsd hd
      · exact ih hp.2 h s hs2 hsd

lemma mem_idsExceptFirstData {l : List Session} {k : Session}
    (h : firstWithData l = some k) :
    ∀ s ∈ l, s.id ≠ k.id → s.id ∈ idsExceptFirstData l := by
  induction l with
  | nil => cases h
  | cons t ts ih =>
    unfold firstWithData at h
    unfold idsExceptFirstData
    by_cases hd : t.data ≠ none
    · rw [if_pos hd] at h ⊢
      cases h
      intro s hs hne
      rcases List.mem_cons.mp hs with rfl | hs2
      · exact absurd rfl hne
      · exact List.mem_map.mpr ⟨s, hs2, rfl⟩
    · rw [if_neg hd] at h ⊢
      intro s hs hne
      rcases List.mem_cons.mp hs with rfl | hs2
      · exact List.mem_cons_self _ _
      · exact List.mem_cons_of_mem _ (ih h s hs2 hne)

lemma not_mem_idsExceptFirstData {l : List Session} {k : Session}
    (hpw : l.Pairwise fun a b => a.id ≠ b.id)
    (h : firstWithData l = some k) : k.id ∉ idsExceptFirstData l := by
  induction l with
  | nil => cases h
  | cons t ts ih =>
    rw [List.pairwise_cons] at hpw
    unfold firstWithData at h
    unfold idsExceptFirstData
    by_cases hd : t.data ≠ none
    · rw [if_pos hd] at h ⊢
      cases h
      intro hmem
      rcases List.mem_map.mp hmem with ⟨s, hs, hsid⟩
      exact hpw.1 s hs hsid.symm
    · rw [if_neg hd] at h ⊢
      intro hmem
      have hkts : k ∈ ts := (firstWithData_some h).1
      rcases List.mem_cons.mp hmem with heq | hmem2
      · exact hpw.1 k hkts heq.symm
      · exact ih hpw.2 h hmem2

lemma idsExceptFirstData_of_none {l : List Session}
    (h : firstWithData l = none) : idsExceptFirstData l = l.map (·.id) := by
  induction l with
  | nil => rfl
  | cons t ts ih =>
    unfold firstWithData at h
    unfold idsExceptFirstData
    by_cases hd : t.data ≠ none
    · rw [if_pos hd] at h; cases h
    · rw [if_neg hd] at h
      rw [if_neg hd, ih h]
      rfl

lemma deleteEach_mem (fail : Nat → Bool) (dels : List Nat) (db : DB)
    (s : Session) :
    s ∈ (deleteEach fail dels db).sessions ↔
      s ∈ db.sessions ∧ (s.id ∈ dels → fail s.id = true) := by
  induction dels generalizing db with
  | nil => simp [deleteEach]
  | cons i ids ih =>
    unfold deleteEach
    rw [List.foldl_cons]
    by_cases hf : fail i = true
    · rw [if_pos hf]
      rw [show List.foldl
          (fun d i => if fail i = true then d
            else { d with sessions := d.sessions.filter fun s => s.id ≠ i }) db ids =
          deleteEach fail ids db from rfl, ih]
      constructor
      · rintro ⟨hmem, himp⟩
        refine ⟨hmem, fun hin => ?_⟩
        rcases List.mem_cons.mp hin with rfl | hin2
        · exact hf
        · exact himp hin2
      · rintro ⟨hmem, himp⟩
        exact ⟨hmem, fun hin => himp (List.mem_cons_of_mem _ hin)⟩
    · rw [if_neg hf]
      rw [show List.foldl
          (fun d i => if fail i = true then d
            else { d with sessions := d.sessions.filter fun s => s.id ≠ i })
          { db with sessions := db.sessions.filter fun s => s.id ≠ i } ids =
          deleteEach fail ids
            { db with sessions := db.sessions.filter fun s => s.id ≠ i } from rfl,
        ih]
      simp only [List.mem_filter]
      constructor
      · rintro ⟨⟨hmem, hne⟩, himp⟩
        refine ⟨hmem, fun hin => ?_⟩
        rcases List.mem_cons.mp hin with rfl | hin2
        · simp at hne
        · exact himp hin2
      · rintro ⟨hmem, himp⟩
        have hne : s.id ≠ i := by
          intro heq
          have hft := himp (by rw [heq]; exact List.mem_cons_self _ _)
          rw [heq] at hft
          exact hf hft
        exact ⟨⟨hmem, by simpa using hne⟩, fun hin => himp (List.mem_cons_of_mem _ hin)⟩

/-- C5: when more than one active session exists for a user,
`getActiveSession` keeps the most-recently-updated row that has a non-null
transcript (or the most-recently-updated row when none has one), deletes
all the others, and an individual deletion failure does not prevent the
deletion of the remaining duplicates. -/
theorem getActiveSession_duplicate_repair (fail : Nat → Bool) (db : DB)
    (u : String)
    (hid : db.sessions.Pairwise fun a b => a.id ≠ b.id)
    (hlen : 2 ≤ (activeList db u).length) :
    ∃ k db2, getActiveSession fail db u = (some k, db2) ∧
      k ∈ activeList db u ∧
      ((∃ s ∈ activeList db u, s.data ≠ none) →
        k.data ≠ none ∧
          ∀ s ∈ activeList db u, s.data ≠ none → s.updatedAt ≤ k.updatedAt) ∧
      ((∀ s ∈ activeList db u, s.data = none) →
        ∀ s ∈ activeList db u, s.updatedAt ≤ k.updatedAt) ∧
      (∀ s ∈ activeList db u, s.id ≠ k.id → fail s.id = false →
        s ∉ db2.sessions) ∧
      k ∈ db2.sessions := by
  have hA := activeList_sorted db u
  have hAid := activeList_id_pairwise u hid
  match hAeq : activeList db u with
  | [] => rw [hAeq] at hlen; simp at hlen
  | [s] => rw [hAeq] at hlen; simp at hlen
  | a :: b :: rest =>
    rw [hAeq] at hA hAid
    have hgas : getActiveSession fail db u =
        (let (valid, dels) := pickValidLoop (a :: b :: rest) none []
         let (kept, dels2) :=
           match valid with
           | some k => (some k, dels)
           | none => (some a, dels.erase a.id)
         (kept, deleteEach fail dels2 db)) := by
      unfold getActiveSession
      rw [hAeq]
    rw [pickValidLoop_none_eq, List.nil_append] at hgas
    cases hfd : firstWithData (a :: b :: rest) with
    | some k =>
      rw [hfd] at hgas
      dsimp only at hgas
      refine ⟨k, _, hgas, ?_, ?_, ?_, ?_, ?_⟩
      · exact (firstWithData_some hfd).1
      · intro _
        refine ⟨(firstWithData_some hfd).2, ?_⟩
        intro s hs hsd
        exact firstWithData_max hA hfd s hs hsd
      · intro hall
        have := hall k (firstWithData_some hfd).1
        exact absurd this (firstWithData_some hfd).2
      · intro s hs hne hfl
        intro hmem
        have h2 := ((deleteEach_mem fail _ db s).mp hmem).2
          (mem_idsExceptFirstData hfd s hs hne)
        rw [hfl] at h2
        cases h2
      · refine (deleteEach_mem fail _ db k).mpr ⟨?_, ?_⟩
        · exact (mem_activeList.mp
            (by rw [hAeq]; exact (firstWithData_some hfd).1)).1
        · intro hin
          exact absurd hin (not_mem_idsExceptFirstData hAid hfd)
    | none =>
      rw [hfd] at hgas
      rw [idsExceptFirstData_of_none hfd] at hgas
      dsimp only at hgas
      have herase : ((a :: b :: rest).map (·.id)).erase a.id =
          (b :: rest).map (·.id) := by
        rw [List.map_cons, List.erase_cons_head]
      rw [herase] at hgas
      have hallnone := firstWithData_none hfd
      rw [List.pairwise_cons] at hA hAid
      refine ⟨a, _, hgas, ?_, ?_, ?_, ?_, ?_⟩
      · exact List.mem_cons_self _ _
      · rintro ⟨s, hs, hsd⟩
        exact absurd (hallnone s hs) hsd
      · intro _ s hs
        rcases List.mem_cons.mp hs with rfl | hs2
        · exact le_refl _
        · exact hA.1 s hs2
      · intro s hs hne hfl
        intro hmem
        have hsin : s.id ∈ (b :: rest).map (·.id) := by
          rcases List.mem_cons.mp hs with rfl | hs2
          · exact absurd rfl hne
          · exact List.mem_map.mpr ⟨s, hs2, rfl⟩
        have h2 := ((deleteEach_mem fail _ db s).mp hmem).2 hsin
        rw [hfl] at h2
        cases h2
      · refine (deleteEach_mem fail _ db a).mpr ⟨?_, ?_⟩
        · exact (mem_activeList.mp
            (by rw [hAeq]; exact List.mem_cons_self _ _)).1
        · intro hin
          rcases List.mem_map.mp hin with ⟨s, hs, hsid⟩
          exact absurd hsid.symm (hAid.1 s hs)

/-- Concrete duplicate-active state for the C5 witness: two true-active
sessions for one user, the newer one without data, the older one with. -/
def c5DB : DB :=
  { sessions :=
      [{ id := 1, userId := "u", data := none, updatedAt := 10 },
       { id := 2, userId := "u", data := some {}, updatedAt := 5 }],
    progress := [], nextId := 3 }

/-- Witness for C5 at the concrete duplicate-active state. -/
theorem getActiveSession_duplicate_repair_witness :
    ∃ k db2, getActiveSession (fun _ => false) c5DB "u" = (some k, db2) ∧
      k ∈ activeList c5DB "u" ∧
      ((∃ s ∈ activeList c5DB "u", s.data ≠ none) →
        k.data ≠ none ∧
          ∀ s ∈ activeList c5DB "u", s.data ≠ none →
            s.updatedAt ≤ k.updatedAt) ∧
      ((∀ s ∈ activeList c5DB "u", s.data = none) →
        ∀ s ∈ activeList c5DB "u", s.updatedAt ≤ k.updatedAt) ∧
      (∀ s ∈ activeList c5DB "u", s.id ≠ k.id →
        (fun _ => false) s.id = false → s ∉ db2.sessions) ∧
      k ∈ db2.sessions :=
  getActiveSession_duplicate_repair (fun _ => false) c5DB "u" (by decide)
    (by decide)

/-! ### Invariant and idempotence lemmas for the session store -/

lemma activeCount_eq_length_activeList (db : DB) (u : String) :
    activeCount db u = (activeList db u).length := by
  unfold activeCount activeList
  exact (sortByUpdatedDesc_perm _).length_eq.symm

lemma eq_of_mem_pairwise_id {l : List Session} {s k : Session}
    (hpw : l.Pairwise fun a b => a.id ≠ b.id)
    (hs : s ∈ l) (hk : k ∈ l) (hid : s.id = k.id) : s = k := by
  induction l with
  | nil => cases hs
  | cons x xs ih =>
    rw [List.pairwise_cons] at hpw
    rcases List.mem_cons.mp hs with rfl | hs2
    · rcases List.mem_cons.mp hk with rfl | hk2
      · rfl
      · exact absurd hid (hpw.1 k hk2)
    · rcases List.mem_cons.mp hk with rfl | hk2
      · exact absurd hid.symm (hpw.1 s hs2)
      · exact ih hpw.2 hs2 hk2

lemma length_le_one_of_all_eq {l : List Session} {k : Session}
    (hpw : l.Pairwise fun a b => a.id ≠ b.id)
    (hall : ∀ x ∈ l, x = k) : l.length ≤ 1 := by
  match l with
  | [] => simp
  | [x] => simp
  | x :: y :: rest =>
    rw [List.pairwise_cons] at hpw
    have hx := hall x (List.mem_cons_self _ _)
    have hy := hall y (List.mem_cons_of_mem _ (List.mem_cons_self _ _))
    have := hpw.1 y (List.mem_cons_self _ _)
    rw [hx, hy] at this
    exact absurd rfl this

lemma deleteEach_pairwise {R : Session → Session → Prop}
    (fail : Nat → Bool) (dels : List Nat) (db : DB)
    (h : db.sessions.Pairwise R) :
    (deleteEach fail dels db).sessions.Pairwise R := by
  induction dels generalizing db with
  | nil => exact h
  | cons i ids ih =>
    unfold deleteEach
    rw [List.foldl_cons]
    by_cases hf : fail i = true
    · rw [if_pos hf]
      exact ih _ h
    · rw [if_neg hf]
      exact ih _ (h.filter _)

lemma getActiveSession_none_eq {fail : Nat → Bool} {db : DB} {u : String}
    {db2 : DB} (h : getActiveSession fail db u = (none, db2)) :
    db2 = db ∧ activeList db u = [] := by
  unfold getActiveSession at h
  match hAeq : activeList db u with
  | [] => rw [hAeq] at h; cases h; exact ⟨rfl, rfl⟩
  | [s] => rw [hAeq] at h; cases h
  | a :: b :: rest =>
    rw [hAeq] at h
    dsimp only at h
    rw [pickValidLoop_none_eq, List.nil_append] at h
    cases hfd : firstWithData (a :: b :: rest) with
    | some k => rw [hfd] at h; dsimp only at h; cases h
    | none => rw [hfd] at h; dsimp only at h; cases h

lemma getActiveSession_some_repair {db : DB} {u : String} {k : Session}
    {db2 : DB} (hid : db.sessions.Pairwise fun a b => a.id ≠ b.id)
    (h : getActiveSession (fun _ => false) db u = (some k, db2)) :
    k ∈ activeList db u ∧
    (∀ s, s ∈ db2.sessions → s ∈ db.sessions) ∧
    (∀ s ∈ activeList db u, s.id ≠ k.id → s ∉ db2.sessions) ∧
    db2.sessions.Pairwise (fun a b => a.id ≠ b.id) := by
  have hAid := activeList_id_pairwise u hid
  unfold getActiveSession at h
  match hAeq : activeList db u with
  | [] => rw [hAeq] at h; cases h
  | [s] =>
    rw [hAeq] at h
    dsimp only at h
    cases h
    refine ⟨List.mem_cons_self _ _, fun s hs => hs, ?_, hid⟩
    intro s hs hne
    rcases List.mem_cons.mp hs with rfl | hs2
    · exact absurd rfl hne
    · cases hs2
  | a :: b :: rest =>
    rw [hAeq] at hAid
    rw [hAeq] at h
    dsimp only at h
    rw [pickValidLoop_none_eq, List.nil_append] at h
    cases hfd : firstWithData (a :: b :: rest) with
    | some k0 =>
      rw [hfd] at h
      dsimp only at h
      cases h
      refine ⟨(firstWithData_some hfd).1, ?_, ?_, ?_⟩
      · intro s hs
        exact ((deleteEach_mem _ _ db s).mp hs).1
      · intro s hs hne hmem
        have h2 := ((deleteEach_mem _ _ db s).mp hmem).2
          (mem_idsExceptFirstData hfd s hs hne)
        cases h2
      · exact deleteEach_pairwise _ _ db hid
    | none =>
      rw [hfd] at h
      rw [idsExceptFirstData_of_none hfd, List.map_cons,
        List.erase_cons_head] at h
      dsimp only at h
      cases h
      refine ⟨List.mem_cons_self _ _, ?_, ?_, ?_⟩
      · intro s hs
        exact ((deleteEach_mem _ _ db s).mp hs).1
      · intro s hs hne hmem
        have hsin : s.id ∈ (b :: rest).map (·.id) := by
          rcases List.mem_cons.mp hs with rfl | hs2
          · exact absurd rfl hne
          · exact List.mem_map.mpr ⟨s, hs2, rfl⟩
        have h2 := ((deleteEach_mem _ _ db s).mp hmem).2 hsin
        cases h2
      · exact deleteEach_pairwise _ _ db hid

lemma createSession_activeCount_le_one (now : Nat) (db : DB) (u : String)
    (input : CreateSessionInput)
    (hid : db.sessions.Pairwise fun a b => a.id ≠ b.id) :
    activeCount (createSession (fun _ => false) now db u input).2 u ≤ 1 := by
  unfold createSession
  cases hg : getActiveSession (fun _ => false) db u with
  | mk opt db2 =>
    cases opt with
    | some k =>
      dsimp only
      obtain ⟨hkA, hsub, hdel, hpw2⟩ := getActiveSession_some_repair hid hg
      unfold activeCount
      refine length_le_one_of_all_eq (k := k) (hpw2.filter _) ?_
      intro x hx
      have hx2 := List.mem_filter.mp hx
      have hxdb : x ∈ db.sessions := hsub x hx2.1
      have hxA : x ∈ activeList db u := mem_activeList.mpr ⟨hxdb, hx2.2⟩
      by_cases hxk : x.id = k.id
      · exact eq_of_mem_pairwise_id hid hxdb
          (mem_activeList.mp hkA).1 hxk
      · exact absurd hx2.1 (hdel x hxA hxk)
    | none =>
      dsimp only
      obtain ⟨heq, hAnil⟩ := getActiveSession_none_eq hg
      have hAnil2 : activeList db2 u = [] := by rw [heq]; exact hAnil
      have h0 : (db2.sessions.filter
          fun s => s.userId == u && isTrueActive s).length = 0 := by
        have hc := activeCount_eq_length_activeList db2 u
        rw [hAnil2] at hc
        simpa [activeCount] using hc
      unfold activeCount
      rw [List.filter_append, List.length_append, h0]
      have hle := List.length_filter_le
        (fun s => s.userId == u && isTrueActive s)
        [newSession db2.nextId now u input]
      simpa using hle

lemma length_filter_mapIf_le (l : List Session) (p : Session → Bool)
    (sid : Nat) (f : Session → Session)
    (h : ∀ s ∈ l, s.id = sid → p (f s) = true → p s = true) :
    ((l.map fun s => if s.id = sid then f s else s).filter p).length ≤
      (l.filter p).length := by
  induction l with
  | nil => simp
  | cons x xs ih =>
    have ih2 := ih fun s hs => h s (List.mem_cons_of_mem _ hs)
    rw [List.map_cons, List.filter_cons, List.filter_cons]
    by_cases hx : x.id = sid
    · rw [if_pos hx]
      by_cases hpf : p (f x) = true
      · rw [if_pos hpf, if_pos (h x (List.mem_cons_self _ _) hx hpf)]
        simpa using ih2
      · rw [if_neg hpf]
        split
        · exact le_trans ih2 (by simp)
        · exact ih2
    · rw [if_neg hx]
      split
      · simpa using ih2
      · exact ih2

lemma updateSession_activeCount_le (now : Nat) (oracle : OracleResp)
    (db : DB) (sid : Nat) (patch : UpdateSessionInput) (u : String)
    (r : Session × DB)
    (hid : db.sessions.Pairwise fun a b => a.id ≠ b.id)
    (h : updateSession now oracle db sid patch = some r)
    (hpatch : ∀ s0 ∈ db.sessions, s0.id = sid →
      isTrueActive (applyPatch now patch s0) = true →
      isTrueActive s0 = true) :
    activeCount r.2 u ≤ activeCount db u := by
  have hmapLe : ∀ (d : DB) (f : Session → Session),
      (∀ s ∈ d.sessions, s.id = sid →
        ((f s).userId == u && isTrueActive (f s)) = true →
        (s.userId == u && isTrueActive s) = true) →
      activeCount (mapSession d sid f) u ≤ activeCount d u := by
    intro d f hf
    unfold activeCount mapSession
    exact length_filter_mapIf_le d.sessions _ sid f hf
  unfold updateSession at h
  cases hfind : db.sessions.find? (fun s => s.id = sid) with
  | none => rw [hfind] at h; cases h
  | some s0 =>
    rw [hfind] at h
    dsimp only at h
    have hs0mem : s0 ∈ db.sessions := List.mem_of_find?_eq_some hfind
    have hs0id : s0.id = sid := by
      have := List.find?_some hfind
      simpa using this
    have hstep1 : activeCount
        (mapSession db sid fun _ => applyPatch now patch s0) u ≤
        activeCount db u := by
      apply hmapLe
      intro s hs hsid hact
      have hseq : s = s0 := eq_of_mem_pairwise_id hid hs hs0mem
        (hsid.trans hs0id.symm)
      subst hseq
      rw [Bool.and_eq_true] at hact ⊢
      refine ⟨?_, hpatch s hs hsid hact.2⟩
      have huser : (applyPatch now patch s).userId = s.userId := rfl
      rw [huser] at hact
      exact hact.1
    split at h
    · split at h
      · cases h; exact hstep1
      · split at h
        · cases h; exact hstep1
        · cases h
          dsimp only
          have hprog : ∀ (d : DB) (pr : List Progress),
              activeCount { d with progress := pr } u = activeCount d u := by
            intro d pr; rfl
          split
          · refine le_trans (hmapLe _ _ ?_) hstep1
            intro s hs hsid hact
            exact hact
          · exact hstep1
    · cases h; exact hstep1

/-- Counterexample for C2 as stated: the call sequence `createSession`,
`updateSession { lastPoint := "p" }` (pause), `createSession` (new active),
`updateSession { lastPoint := "" }` (re-activate the paused one) leaves the
user with two sessions satisfying `completed = false ∧ lastPoint ∈ {null,
""}`. -/
theorem active_session_invariant_counterexample :
    ∃ s2 db2 s4 db4,
      updateSession 2 .malformed
          (createSession (fun _ => false) 1 ⟨[], [], 0⟩ "u" {}).2 0
          { lastPoint := some "p" } = some (s2, db2) ∧
      updateSession 4 .malformed
          (createSession (fun _ => false) 3 db2 "u" {}).2 0
          { lastPoint := some "" } = some (s4, db4) ∧
      activeCount db4 "u" = 2 := by
  exact ⟨_, _, _, _, rfl, rfl, rfl⟩

/-- C2 (amended): `createSession` (with all repair deletions succeeding and
row ids unique) always leaves at most one true-active session for the
user; `updateSession` preserves the invariant whenever its patch does not
turn a non-true-active session true-active; `resumeSession` mutates
nothing and only returns a not-completed session owned by the user.  An
`updateSession` patch that re-activates a paused session (e.g. sets
`lastPoint` to `""`) while another active session exists can break the
invariant, as the counterexample shows; the violation is repaired by the
next `getActiveSession`/`createSession`. -/
theorem active_session_invariant_preservation :
    (∀ (now : Nat) (db : DB) (u : String) (input : CreateSessionInput),
      db.sessions.Pairwise (fun a b => a.id ≠ b.id) →
      activeCount (createSession (fun _ => false) now db u input).2 u ≤ 1) ∧
    (∀ (now : Nat) (oracle : OracleResp) (db : DB) (sid : Nat)
        (patch : UpdateSessionInput) (u : String) (r : Session × DB),
      db.sessions.Pairwise (fun a b => a.id ≠ b.id) →
      updateSession now oracle db sid patch = some r →
      (∀ s0 ∈ db.sessions, s0.id = sid →
        isTrueActive (applyPatch now patch s0) = true →
        isTrueActive s0 = true) →
      activeCount db u ≤ 1 → activeCount r.2 u ≤ 1) ∧
    (∀ (db : DB) (sid : Nat) (u : String) (s : Session),
      resumeSession db sid u = .ok s →
      s ∈ db.sessions ∧ s.completed = false) := by
  refine ⟨?_, ?_, ?_⟩
  · intro now db u input hid
    exact createSession_activeCount_le_one now db u input hid
  · intro now oracle db sid patch u r hid h hpatch hinv
    exact le_trans
      (updateSession_activeCount_le now oracle db sid patch u r hid h hpatch)
      hinv
  · intro db sid u s h
    unfold resumeSession at h
    cases hfind : db.sessions.find?
        (fun t => t.id = sid && t.userId == u) with
    | none => rw [hfind] at h; cases h
    | some t =>
      rw [hfind] at h
      dsimp only at h
      by_cases hc : t.completed
      · rw [if_pos hc] at h; cases h
      · rw [if_neg hc] at h
        cases h
        exact ⟨List.mem_of_find?_eq_some hfind, by simpa using hc⟩

/-- Witness for C2's amended theorem at a concrete state. -/
theorem active_session_invariant_preservation_witness :
    activeCount (createSession (fun _ => false) 1 ⟨[], [], 0⟩ "u" {}).2
      "u" ≤ 1 :=
  active_session_invariant_preservation.1 1 ⟨[], [], 0⟩ "u" {}
    List.Pairwise.nil

/-- C7: `createSession` first checks for an existing true-active session
and returns it (and the repaired state) unchanged when found; and for a
user with no prior sessions, calling `createSession` twice in a row (with
an input that does not set a non-empty resume marker) yields the same
session id both times. -/
theorem createSession_idempotent :
    (∀ (fail : Nat → Bool) (now : Nat) (db : DB) (u : String)
        (input : CreateSessionInput) (k : Session) (db2 : DB),
      getActiveSession fail db u = (some k, db2) →
      createSession fail now db u input = (k, db2)) ∧
    (∀ (fail : Nat → Bool) (now now2 : Nat) (db : DB) (u : String)
        (input : CreateSessionInput),
      db.sessions.filter (fun s => s.userId == u) = [] →
      (input.lastPoint = none ∨ input.lastPoint = some "") →
      ((createSession fail now2
          (createSession fail now db u input).2 u input).1).id =
        ((createSession fail now db u input).1).id) := by
  constructor
  · intro fail now db u input k db2 h
    unfold createSession
    rw [h]
  · intro fail now now2 db u input hno hbenign
    have hf : db.sessions.filter
        (fun s => s.userId == u && isTrueActive s) = [] := by
      rw [List.filter_eq_nil_iff] at hno ⊢
      intro a ha hcontra
      rw [Bool.and_eq_true] at hcontra
      exact hno a ha hcontra.1
    have hA : activeList db u = [] := by
      unfold activeList
      rw [hf]
      rfl
    have hg1 : getActiveSession fail db u = (none, db) := by
      unfold getActiveSession
      rw [hA]
    have hc1 : createSession fail now db u input =
        (newSession db.nextId now u input,
          { db with
            sessions := db.sessions ++ [newSession db.nextId now u input],
            nextId := db.nextId + 1 }) := by
      unfold createSession
      rw [hg1]
    have hactive : ((fun s => s.userId == u && isTrueActive s)
        (newSession db.nextId now u input)) = true := by
      rcases hbenign with hb | hb <;>
        simp [newSession, isTrueActive, hb]
    have hA2 : activeList
        { db with
          sessions := db.sessions ++ [newSession db.nextId now u input],
          nextId := db.nextId + 1 } u = [newSession db.nextId now u input] := by
      unfold activeList
      dsimp only
      rw [List.filter_append, hf, List.nil_append]
      rw [List.filter_cons, if_pos hactive]
      rfl
    have hg2 : getActiveSession fail
        { db with
          sessions := db.sessions ++ [newSession db.nextId now u input],
          nextId := db.nextId + 1 } u =
        (some (newSession db.nextId now u input),
          { db with
            sessions := db.sessions ++ [newSession db.nextId now u input],
            nextId := db.nextId + 1 }) := by
      unfold getActiveSession
      rw [hA2]
    rw [hc1]
    dsimp only
    unfold createSession
    rw [hg2]

/-- Witness for C7 at the empty state. -/
theorem createSession_idempotent_witness :
    ((createSession (fun _ => false) 7
        (createSession (fun _ => false) 3 ⟨[], [], 0⟩ "u" {}).2 "u"
        {}).1).id =
      ((createSession (fun _ => false) 3 ⟨[], [], 0⟩ "u" {}).1).id :=
  createSession_idempotent.2 (fun _ => false) 3 7 ⟨[], [], 0⟩ "u" {} rfl
    (Or.inl rfl)

/-! ### Streak lemmas -/

lemma mem_insertDayDesc {a x : Int} {l : List Int} :
    a ∈ insertDayDesc x l ↔ a = x ∨ a ∈ l := by
  induction l with
  | nil => simp [insertDayDesc]
  | cons y ys ih =>
    unfold insertDayDesc
    by_cases h1 : y < x
    · rw [if_pos h1]
      simp [List.mem_cons]
    · rw [if_neg h1]
      by_cases h2 : x = y
      · rw [if_pos h2]
        subst h2
        simp only [List.mem_cons]
        tauto
      · rw [if_neg h2]
        simp only [List.mem_cons, ih]
        tauto

lemma pairwise_insertDayDesc {x : Int} {l : List Int}
    (h : l.Pairwise fun a b => b < a) :
    (insertDayDesc x l).Pairwise fun a b => b < a := by
  induction l with
  | nil => simp [insertDayDesc]
  | cons y ys ih =>
    rw [List.pairwise_cons] at h
    unfold insertDayDesc
    by_cases h1 : y < x
    · rw [if_pos h1]
      rw [List.pairwise_cons]
      refine ⟨?_, List.pairwise_cons.mpr h⟩
      intro b hb
      rcases List.mem_cons.mp hb with rfl | hb2
      · exact h1
      · exact lt_trans (h.1 b hb2) h1
    · rw [if_neg h1]
      by_cases h2 : x = y
      · rw [if_pos h2]
        exact List.pairwise_cons.mpr h
      · rw [if_neg h2]
        rw [List.pairwise_cons]
        refine ⟨?_, ih h.2⟩
        intro b hb
        rcases mem_insertDayDesc.mp hb with rfl | hb2
        · exact lt_of_le_of_ne (not_lt.mp h1) h2
        · exact h.1 b hb2

lemma mem_sortedUniqueDaysDesc (l : List Int) (a : Int) :
    a ∈ sortedUniqueDaysDesc l ↔ a ∈ l := by
  have aux : ∀ (l acc : List Int),
      a ∈ l.foldl (fun acc d => insertDayDesc d acc) acc ↔
        a ∈ acc ∨ a ∈ l := by
    intro l
    induction l with
    | nil => intro acc; simp
    | cons d rest ih =>
      intro acc
      rw [List.foldl_cons, ih (insertDayDesc d acc)]
      simp only [mem_insertDayDesc, List.mem_cons]
      tauto
  rw [show sortedUniqueDaysDesc l =
      l.foldl (fun acc d => insertDayDesc d acc) [] from rfl, aux]
  simp

lemma pairwise_sortedUniqueDaysDesc (l : List Int) :
    (sortedUniqueDaysDesc l).Pairwise fun a b => b < a := by
  have aux : ∀ (l acc : List Int),
      (acc.Pairwise fun a b => b < a) →
      ((l.foldl (fun acc d => insertDayDesc d acc) acc).Pairwise
        fun a b => b < a) := by
    intro l
    induction l with
    | nil => intro acc h; exact h
    | cons d rest ih =>
      intro acc h
      rw [List.foldl_cons]
      exact ih _ (pairwise_insertDayDesc h)
  exact aux l [] List.Pairwise.nil

lemma currentStreakLoop_sound (l : List Int) (e : Int) :
    ∀ j : Nat, j < currentStreakLoop l e → (e - (j : Int)) ∈ l := by
  induction l generalizing e with
  | nil => intro j hj; simp [currentStreakLoop] at hj
  | cons d rest ih =>
    intro j hj
    unfold currentStreakLoop at hj
    by_cases hd : d = e
    · rw [if_pos hd] at hj
      cases j with
      | zero =>
        have heq : e - ((0 : Nat) : Int) = d := by rw [hd]; simp
        rw [heq]
        exact List.mem_cons_self _ _
      | succ j2 =>
        have hj2 : j2 < currentStreakLoop rest (e - 1) := by omega
        have hmem := ih (e - 1) j2 hj2
        have heq : e - ((j2 + 1 : Nat) : Int) = (e - 1) - (j2 : Int) := by
          push_cast
          ring
        rw [heq]
        exact List.mem_cons_of_mem _ hmem
    · rw [if_neg hd] at hj
      omega

lemma currentStreakLoop_notMem (l : List Int) (e : Int)
    (hpw : l.Pairwise fun a b => b < a) (hle : ∀ d ∈ l, d ≤ e) :
    (e - (currentStreakLoop l e : Int)) ∉ l := by
  induction l generalizing e with
  | nil => simp
  | cons d rest ih =>
    rw [List.pairwise_cons] at hpw
    unfold currentStreakLoop
    by_cases hd : d = e
    · rw [if_pos hd]
      intro hmem
      have heq : e - ((currentStreakLoop rest (e - 1) + 1 : Nat) : Int) =
          (e - 1) - (currentStreakLoop rest (e - 1) : Int) := by
        push_cast
        ring
      rw [heq] at hmem
      rcases List.mem_cons.mp hmem with h1 | h2
      · have hc : (0 : Int) ≤ (currentStreakLoop rest (e - 1) : Int) :=
          Int.natCast_nonneg _
        omega
      · exact ih (e - 1) hpw.2
          (fun x hx => by have := hpw.1 x hx; omega) h2
    · rw [if_neg hd]
      intro hmem
      have h0 : e - ((0 : Nat) : Int) = e := by simp
      rw [h0] at hmem
      rcases List.mem_cons.mp hmem with h1 | h2
      · exact hd h1.symm
      · have hde : d ≤ e := hle d (List.mem_cons_self _ _)
        have := hpw.1 e h2
        omega

lemma runFrom_pos {l : List Int} (h : l ≠ []) : 1 ≤ runFrom l := by
  match l with
  | [] => exact absurd rfl h
  | [x] => simp [runFrom]
  | a :: b :: rest =>
    unfold runFrom
    split <;> omega

lemma currentStreakLoop_le_runFrom (l : List Int) (e : Int) :
    currentStreakLoop l e ≤ runFrom l := by
  induction l generalizing e with
  | nil => simp [currentStreakLoop, runFrom]
  | cons d rest ih =>
    unfold currentStreakLoop
    by_cases hd : d = e
    · rw [if_pos hd]
      cases rest with
      | nil => simp [currentStreakLoop, runFrom]
      | cons b rest2 =>
        unfold runFrom
        by_cases hdb : d - b = 1
        · rw [if_pos hdb]
          have := ih (e - 1)
          omega
        · rw [if_neg hdb]
          have hb : ¬(b = e - 1) := by
            intro hbe
            exact hdb (by omega)
          unfold currentStreakLoop
          rw [if_neg hb]
    · rw [if_neg hd]
      exact Nat.zero_le _

lemma runFrom_sound (l : List Int) (a : Int) :
    ∀ j : Nat, j < runFrom (a :: l) → (a - (j : Int)) ∈ a :: l := by
  induction l generalizing a with
  | nil =>
    intro j hj
    have hj0 : j = 0 := by simpa [runFrom] using hj
    subst hj0
    simp
  | cons b rest ih =>
    intro j hj
    unfold runFrom at hj
    by_cases hab : a - b = 1
    · rw [if_pos hab] at hj
      cases j with
      | zero => simp
      | succ j2 =>
        have hj2 : j2 < runFrom (b :: rest) := by omega
        have hmem := ih b j2 hj2
        have heq : a - ((j2 + 1 : Nat) : Int) = b - (j2 : Int) := by
          push_cast
          omega
        rw [heq]
        exact List.mem_cons_of_mem _ hmem
    · rw [if_neg hab] at hj
      have hj0 : j = 0 := by omega
      subst hj0
      simp

lemma runFrom_complete (l : List Int) (a : Int) (k : Nat)
    (hpw : (a :: l).Pairwise fun x y => y < x)
    (hrun : ∀ j : Nat, j < k → (a - (j : Int)) ∈ a :: l) :
    k ≤ runFrom (a :: l) := by
  induction l generalizing a k with
  | nil =>
    by_contra hk
    push_neg at hk
    have hk2 : 2 ≤ k := by simpa [runFrom] using hk
    have h1 := hrun 1 (by omega)
    simp only [List.mem_singleton] at h1
    omega
  | cons b rest ih =>
    by_cases hk1 : k ≤ 1
    · exact le_trans hk1 (runFrom_pos (by simp))
    · push_neg at hk1
      have h1 := hrun 1 (by omega)
      have h1b : (a - 1) ∈ b :: rest := by
        rcases List.mem_cons.mp h1 with he | hm
        · exfalso
          simp only [Nat.cast_one] at he
          omega
        · simpa using hm
      rw [List.pairwise_cons] at hpw
      have hb : b = a - 1 := by
        rcases List.mem_cons.mp h1b with he | hm
        · omega
        · have hpwb := hpw.2
          rw [List.pairwise_cons] at hpwb
          have hgt := hpwb.1 _ hm
          have hlt := hpw.1 b (List.mem_cons_self _ _)
          omega
      have hrun2 : ∀ j : Nat, j < k - 1 → (b - (j : Int)) ∈ b :: rest := by
        intro j hj
        have hmem := hrun (j + 1) (by omega)
        have heq : a - ((j + 1 : Nat) : Int) = b - (j : Int) := by
          push_cast
          omega
        rw [heq] at hmem
        rcases List.mem_cons.mp hmem with he | hm
        · exfalso
          have hj0 : (0 : Int) ≤ (j : Int) := Int.natCast_nonneg _
          omega
        · exact hm
      have hk2 := ih b (k - 1) hpw.2 hrun2
      unfold runFrom
      rw [if_pos (by omega : a - b = 1)]
      omega

lemma runFrom_le_maxRunList (l : List Int) : runFrom l ≤ maxRunList l := by
  cases l with
  | nil => simp [runFrom, maxRunList]
  | cons a rest => exact le_max_left _ _

lemma maxRun_sound (l : List Int) (h : l ≠ []) :
    ∃ d ∈ l, ∀ j : Nat, j < maxRunList l → (d - (j : Int)) ∈ l := by
  induction l with
  | nil => exact absurd rfl h
  | cons a rest ih =>
    unfold maxRunList
    by_cases hcase : maxRunList rest ≤ runFrom (a :: rest)
    · rw [max_eq_left hcase]
      exact ⟨a, List.mem_cons_self _ _, fun j hj => runFrom_sound rest a j hj⟩
    · push_neg at hcase
      rw [max_eq_right (le_of_lt hcase)]
      have hrest : rest ≠ [] := by
        intro he
        rw [he] at hcase
        simp [maxRunList] at hcase
      obtain ⟨d, hd, hrung⟩ := ih hrest
      exact ⟨d, List.mem_cons_of_mem _ hd,
        fun j hj => List.mem_cons_of_mem _ (hrung j hj)⟩

lemma maxRun_complete (l : List Int) (d : Int) (k : Nat)
    (hpw : l.Pairwise fun x y => y < x)
    (hrun : ∀ j : Nat, j < k → (d - (j : Int)) ∈ l) :
    k ≤ maxRunList l := by
  induction l generalizing d k with
  | nil =>
    match k with
    | 0 => exact le_refl _
    | k + 1 =>
      have := hrun 0 (by omega)
      simp at this
  | cons a rest ih =>
    by_cases hk0 : k = 0
    · simp [hk0]
    · have hd0 : d ∈ a :: rest := by
        have := hrun 0 (by omega)
        simpa using this
      rcases List.mem_cons.mp hd0 with rfl | hdm
      · have hcomp := runFrom_complete rest d k hpw hrun
        unfold maxRunList
        exact le_trans hcomp (le_max_left _ _)
      · rw [List.pairwise_cons] at hpw
        have hrun2 : ∀ j : Nat, j < k → (d - (j : Int)) ∈ rest := by
          intro j hj
          rcases List.mem_cons.mp (hrun j hj) with he | hm
          · exfalso
            have := hpw.1 d hdm
            have hj0 : (0 : Int) ≤ (j : Int) := Int.natCast_nonneg _
            omega
          · exact hm
        unfold maxRunList
        exact le_trans (ih d k hpw.2 hrun2) (le_max_right _ _)

lemma longestStreakAux_ge_one (l : List Int) (prev : Int) (temp best : Nat)
    (h : 1 ≤ temp) : 1 ≤ longestStreakAux l prev temp best := by
  induction l generalizing prev temp best with
  | nil =>
    unfold longestStreakAux
    omega
  | cons d rest ih =>
    unfold longestStreakAux
    split
    · exact ih d (temp + 1) _ (by omega)
    · exact ih d 1 best (by omega)

lemma longestStreakAux_ge_best (l : List Int) (prev : Int)
    (temp best : Nat) : best ≤ longestStreakAux l prev temp best := by
  induction l generalizing prev temp best with
  | nil =>
    unfold longestStreakAux
    omega
  | cons d rest ih =>
    unfold longestStreakAux
    split
    · exact le_trans (le_max_left best (temp + 1)) (ih d (temp + 1) _)
    · exact ih d 1 best

lemma longestStreakAux_eq (l : List Int) (prev : Int) (temp best : Nat)
    (h : 1 ≤ temp) :
    max temp (longestStreakAux l prev temp best) =
      max best (max (temp - 1 + runFrom (prev :: l))
        (maxRunList (prev :: l))) := by
  induction l generalizing prev temp best with
  | nil =>
    simp only [longestStreakAux, runFrom, maxRunList]
    omega
  | cons d rest ih =>
    unfold longestStreakAux
    have h3 : 1 ≤ runFrom (d :: rest) := runFrom_pos (by simp)
    have h4 : runFrom (d :: rest) ≤ maxRunList (d :: rest) :=
      runFrom_le_maxRunList _
    have h2 : maxRunList (prev :: d :: rest) =
        max (runFrom (prev :: d :: rest)) (maxRunList (d :: rest)) := rfl
    have hrfe : runFrom (prev :: d :: rest) =
        if prev - d = 1 then runFrom (d :: rest) + 1 else 1 := rfl
    by_cases hstep : prev - d = 1
    · rw [if_pos hstep]
      have hih := ih d (temp + 1) (max best (temp + 1)) (by omega)
      have h1 : runFrom (prev :: d :: rest) = runFrom (d :: rest) + 1 := by
        rw [hrfe, if_pos hstep]
      have h6 : max best (temp + 1) ≤
          longestStreakAux rest d (temp + 1) (max best (temp + 1)) :=
        longestStreakAux_ge_best rest d (temp + 1) _
      rw [h2, h1]
      omega
    · rw [if_neg hstep]
      have hih := ih d 1 best (le_refl 1)
      have h1 : runFrom (prev :: d :: rest) = 1 := by
        rw [hrfe, if_neg hstep]
      have h5 : 1 ≤ longestStreakAux rest d 1 best :=
        longestStreakAux_ge_one rest d 1 best (le_refl 1)
      rw [h2, h1]
      omega

lemma longestStreakLoop_eq (a : Int) (l : List Int) :
    longestStreakLoop (a :: l) = maxRunList (a :: l) := by
  have heq := longestStreakAux_eq l a 1 0 (le_refl 1)
  have h5 : 1 ≤ longestStreakAux l a 1 0 :=
    longestStreakAux_ge_one l a 1 0 (le_refl 1)
  have h4 : runFrom (a :: l) ≤ maxRunList (a :: l) := runFrom_le_maxRunList _
  have h3 : 1 ≤ runFrom (a :: l) := runFrom_pos (by simp)
  show longestStreakAux l a 1 0 = maxRunList (a :: l)
  omega

/-- C6: the current streak counts backward from today requiring every
calendar day to be present with no gaps — it is the largest `k` with
`today, today−1, …, today−k+1` all session days and `today−k` absent —
and the longest streak is the maximum run of consecutive session days
anywhere in the history: a run of that length exists and no longer run
does.  In particular, days `{today, today−1, today−2, today−4}` give
`(current, longest) = (3, 3)` and days `{today−1, today−3}` give
`(0, 1)`. -/
theorem streak_correctness (days : List Int) (today : Int)
    (hle : ∀ d ∈ days, d ≤ today) :
    (∀ j : Nat, j < (computeStreaks days today).1 →
      (today - (j : Int)) ∈ days) ∧
    (today - ((computeStreaks days today).1 : Int)) ∉ days ∧
    (days ≠ [] → ∃ d ∈ days, ∀ j : Nat,
      j < (computeStreaks days today).2 → (d - (j : Int)) ∈ days) ∧
    (∀ d : Int, ¬ ∀ j : Nat,
      j ≤ (computeStreaks days today).2 → (d - (j : Int)) ∈ days) ∧
    computeStreaks [0, -1, -2, -4] 0 = (3, 3) ∧
    computeStreaks [-1, -3] 0 = (0, 1) := by
  have hconc1 : computeStreaks [0, -1, -2, -4] 0 = (3, 3) := by decide
  have hconc2 : computeStreaks [-1, -3] 0 = (0, 1) := by decide
  by_cases hnil : days.length = 0
  · rw [List.length_eq_zero] at hnil
    subst hnil
    refine ⟨?_, ?_, ?_, ?_, hconc1, hconc2⟩
    · intro j hj
      simp [computeStreaks] at hj
    · simp
    · intro hne
      exact absurd rfl hne
    · intro d hall
      have h0 := hall 0 (by simp [computeStreaks])
      simp at h0
  · have hcs : computeStreaks days today =
        (currentStreakLoop (sortedUniqueDaysDesc days) today,
         max (longestStreakLoop (sortedUniqueDaysDesc days))
           (currentStreakLoop (sortedUniqueDaysDesc days) today)) := by
      unfold computeStreaks
      rw [if_neg hnil]
    have hmem := mem_sortedUniqueDaysDesc days
    have hpw := pairwise_sortedUniqueDaysDesc days
    have hleL : ∀ d ∈ sortedUniqueDaysDesc days, d ≤ today :=
      fun d hd => hle d ((hmem d).mp hd)
    have hLne : sortedUniqueDaysDesc days ≠ [] := by
      obtain ⟨x, hx⟩ : ∃ x, x ∈ days := by
        cases days with
        | nil => simp at hnil
        | cons x xs => exact ⟨x, List.mem_cons_self _ _⟩
      intro hLn
      have hxL := (hmem x).mpr hx
      rw [hLn] at hxL
      cases hxL
    obtain ⟨a, l, hal⟩ : ∃ a l, sortedUniqueDaysDesc days = a :: l := by
      cases hsl : sortedUniqueDaysDesc days with
      | nil => exact absurd hsl hLne
      | cons a l => exact ⟨a, l, rfl⟩
    have hlongeq : max (longestStreakLoop (sortedUniqueDaysDesc days))
        (currentStreakLoop (sortedUniqueDaysDesc days) today) =
        maxRunList (sortedUniqueDaysDesc days) := by
      rw [hal, longestStreakLoop_eq]
      have h1 := currentStreakLoop_le_runFrom (a :: l) today
      have h2 := runFrom_le_maxRunList (a :: l)
      omega
    refine ⟨?_, ?_, ?_, ?_, hconc1, hconc2⟩
    · intro j hj
      rw [hcs] at hj
      exact (hmem _).mp (currentStreakLoop_sound _ today j hj)
    · rw [hcs]
      intro hmem2
      exact currentStreakLoop_notMem _ today hpw hleL ((hmem _).mpr hmem2)
    · intro _
      rw [hcs]
      dsimp only
      rw [hlongeq]
      obtain ⟨d, hdL, hrung⟩ := maxRun_sound _ hLne
      exact ⟨d, (hmem d).mp hdL,
        fun j hj => (hmem _).mp (hrung j hj)⟩
    · intro d hall
      rw [hcs] at hall
      dsimp only at hall
      rw [hlongeq] at hall
      have hrun : ∀ j : Nat, j < maxRunList (sortedUniqueDaysDesc days) + 1 →
          (d - (j : Int)) ∈ sortedUniqueDaysDesc days := by
        intro j hj
        exact (hmem _).mpr (hall j (by omega))
      have hcomp := maxRun_complete _ d
        (maxRunList (sortedUniqueDaysDesc days) + 1) hpw hrun
      omega

/-- Witness for C6 at the concrete day sets of the claim. -/
theorem streak_correctness_witness :
    ((0 : Int) - ((computeStreaks [0, -1, -2, -4] 0).1 : Int)) ∉
      ([0, -1, -2, -4] : List Int) ∧
    computeStreaks [0, -1, -2, -4] 0 = (3, 3) ∧
    computeStreaks [-1, -3] 0 = (0, 1) := by
  have h := streak_correctness [0, -1, -2, -4] 0 (by decide)
  exact ⟨h.2.1, h.2.2.2.2⟩

end SatApi
